import Mathlib

/-!
Verification of the music-player utility (src/bin/music_player.py).

The script walks a music directory, sorts the audio files by modification
time, writes an ffmpeg concat playlist, computes an MD5 digest over the
concatenated file contents (streamed in 4096-byte chunks), compares it with
a digest stored from the previous run, and re-runs the concatenation only
when the digest changed.

The embedding below models:
  * `hashlib.md5` as an explicit MD5 implementation (RFC 1321): a streaming
    context `MD5Ctx` with `update` and `hexdigest`, bytes as `Nat` values,
    32-bit words as `Nat` reduced mod 2^32;
  * the filesystem as a tree `Dir` of (name, mtime) file entries plus named
    subdirectories, and file contents as a map from path to byte list;
  * `open`/`read` outcomes for the checksum file as a `ReadOutcome` value
    (found / FileNotFoundError / any other OSError).
-/

/-- Reduce a machine word to 32 bits, as Python's md5 arithmetic does. -/
def w32 (n : Nat) : Nat := n % 4294967296

/-- Left-rotation of a 32-bit word. -/
def rotl (x s : Nat) : Nat := w32 (x <<< s) ||| (w32 x >>> (32 - s))

/-- Bitwise complement of a 32-bit word. -/
def mnot (x : Nat) : Nat := Nat.xor (w32 x) 4294967295

/-- The 64 MD5 round constants, floor(2^32 * |sin(i+1)|), from RFC 1321. -/
def md5K : List Nat :=
  [0xd76aa478, 0xe8c7b756, 0x242070db, 0xc1bdceee,
   0xf57c0faf, 0x4787c62a, 0xa8304613, 0xfd469501,
   0x698098d8, 0x8b44f7af, 0xffff5bb1, 0x895cd7be,
   0x6b901122, 0xfd987193, 0xa679438e, 0x49b40821,
   0xf61e2562, 0xc040b340, 0x265e5a51, 0xe9b6c7aa,
   0xd62f105d, 0x02441453, 0xd8a1e681, 0xe7d3fbc8,
   0x21e1cde6, 0xc33707d6, 0xf4d50d87, 0x455a14ed,
   0xa9e3e905, 0xfcefa3f8, 0x676f02d9, 0x8d2a4c8a,
   0xfffa3942, 0x8771f681, 0x6d9d6122, 0xfde5380c,
   0xa4beea44, 0x4bdecfa9, 0xf6bb4b60, 0xbebfbc70,
   0x289b7ec6, 0xeaa127fa, 0xd4ef3085, 0x04881d05,
   0xd9d4d039, 0xe6db99e5, 0x1fa27cf8, 0xc4ac5665,
   0xf4292244, 0x432aff97, 0xab9423a7, 0xfc93a039,
   0x655b59c3, 0x8f0ccc92, 0xffeff47d, 0x85845dd1,
   0x6fa87e4f, 0xfe2ce6e0, 0xa3014314, 0x4e0811a1,
   0xf7537e82, 0xbd3af235, 0x2ad7d2bb, 0xeb86d391]

/-- The 64 per-round left-rotation amounts of MD5. -/
def md5S : List Nat :=
  [7, 12, 17, 22, 7, 12, 17, 22, 7, 12, 17, 22, 7, 12, 17, 22,
   5, 9, 14, 20, 5, 9, 14, 20, 5, 9, 14, 20, 5, 9, 14, 20,
   4, 11, 16, 23, 4, 11, 16, 23, 4, 11, 16, 23, 4, 11, 16, 23,
   6, 10, 15, 21, 6, 10, 15, 21, 6, 10, 15, 21, 6, 10, 15, 21]

/-- Message-word index used in MD5 round i. -/
def md5G (i : Nat) : Nat :=
  if i < 16 then i
  else if i < 32 then (5 * i + 1) % 16
  else if i < 48 then (3 * i + 5) % 16
  else (7 * i) % 16

/-- The MD5 round function F, G, H or I depending on the round number. -/
def md5F (i b c d : Nat) : Nat :=
  if i < 16 then Nat.lor (Nat.land b c) (Nat.land (mnot b) d)
  else if i < 32 then Nat.lor (Nat.land d b) (Nat.land (mnot d) c)
  else if i < 48 then Nat.xor b (Nat.xor c d)
  else Nat.xor c (Nat.lor b (mnot d))

/-- The four 32-bit words of the MD5 chaining state. -/
structure Hash where
  a : Nat
  b : Nat
  c : Nat
  d : Nat
deriving DecidableEq, Repr

/-- One MD5 round step on the working state, for round i with message M. -/
def md5Step (M : List Nat) (st : Hash) (i : Nat) : Hash :=
  let f := w32 (md5F i st.b st.c st.d + st.a + md5K.getD i 0 + M.getD (md5G i) 0)
  ⟨st.d, w32 (st.b + rotl f (md5S.getD i 0)), st.b, st.c⟩

/-- Decode a byte list into little-endian 32-bit words. -/
def toWords : List Nat → List Nat
  | b0 :: b1 :: b2 :: b3 :: rest =>
      (b0 % 256 + 256 * (b1 % 256) + 65536 * (b2 % 256) + 16777216 * (b3 % 256))
        :: toWords rest
  | _ => []

/-- MD5 compression function: absorb one 64-byte block into the state. -/
def compress (h : Hash) (block : List Nat) : Hash :=
  let M := toWords block
  let r := (List.range 64).foldl (md5Step M) h
  ⟨w32 (h.a + r.a), w32 (h.b + r.b), w32 (h.c + r.c), w32 (h.d + r.d)⟩

/-- Streaming MD5 context: chaining state, pending bytes, total byte count.
This models the mutable `hashlib.md5` object of the Python code. -/
structure MD5Ctx where
  hash : Hash
  buffer : List Nat
  length : Nat
deriving DecidableEq, Repr

/-- A fresh `hashlib.md5()` object, per RFC 1321 initial values. -/
def md5_init : MD5Ctx :=
  ⟨⟨0x67452301, 0xefcdab89, 0x98badcfe, 0x10325476⟩, [], 0⟩

/-- Compress as many full 64-byte blocks as the pending bytes allow,
returning the new chaining state and the residual bytes. -/
def absorb (h : Hash) (p : List Nat) : Hash × List Nat :=
  if h64 : 64 ≤ p.length then absorb (compress h (p.take 64)) (p.drop 64)
  else (h, p)
termination_by p.length
decreasing_by
  simp only [List.length_drop]
  omega

/-- The `update` method of the md5 object: append bytes, compress blocks. -/
def update (ctx : MD5Ctx) (data : List Nat) : MD5Ctx :=
  let r := absorb ctx.hash (ctx.buffer ++ data)
  ⟨r.1, r.2, ctx.length + data.length⟩

/-- Eight little-endian bytes of a 64-bit value (the MD5 length field). -/
def u64le (n : Nat) : List Nat :=
  [n % 256, n / 256 % 256, n / 65536 % 256, n / 16777216 % 256,
   n / 4294967296 % 256, n / 1099511627776 % 256,
   n / 281474976710656 % 256, n / 72057594037927936 % 256]

/-- MD5 padding for a message of `len` bytes: 0x80, zeros to 56 mod 64,
then the bit length as 64-bit little-endian. -/
def mdPadding (len : Nat) : List Nat :=
  128 :: List.replicate ((119 - len % 64) % 64) 0 ++ u64le (len * 8)

/-- Four little-endian bytes of a 32-bit word. -/
def wordLE (w : Nat) : List Nat :=
  [w % 256, w / 256 % 256, w / 65536 % 256, w / 16777216 % 256]

/-- The sixteen lowercase hexadecimal digits. -/
def hexDigits : List Char := "0123456789abcdef".data

/-- Lowercase hex digit for a value (taken mod 16). -/
def hexChar (n : Nat) : Char := hexDigits.getD (n % 16) (Char.ofNat 48)

/-- Two lowercase hex digits of a byte. -/
def byteToHex (b : Nat) : List Char := [hexChar (b / 16), hexChar (b % 16)]

/-- The `hexdigest` method: pad, absorb the final blocks, and print the four
state words as 32 lowercase hex characters, little-endian per word. -/
def hexdigest (ctx : MD5Ctx) : String :=
  let r := absorb ctx.hash (ctx.buffer ++ mdPadding ctx.length)
  String.mk (((wordLE r.1.a ++ wordLE r.1.b ++ wordLE r.1.c ++ wordLE r.1.d).map
    byteToHex).flatten)

/-- Split a byte list into successive 4096-byte chunks, as the loop
`iter(lambda: f.read(4096), b"")` yields them; an empty file yields no
chunks at all. -/
def chunks4096 (bs : List Nat) : List (List Nat) :=
  if h : bs = [] then [] else bs.take 4096 :: chunks4096 (bs.drop 4096)
termination_by bs.length
decreasing_by
  simp only [List.length_drop]
  have : 0 < bs.length := List.length_pos.mpr h
  omega

/-- Embedding of `calculate_checksum(files)`: one md5 object, updated with
each file's bytes in 4096-byte chunks, files in list order; `content` maps a
file path to the file's bytes. -/
def calculate_checksum (content : String → List Nat) (files : List String) : String :=
  hexdigest (files.foldl (fun ctx file => (chunks4096 (content file)).foldl update ctx)
    md5_init)

/-- MD5 hex digest of a single byte string, hashed in one shot. -/
def md5_hex (data : List Nat) : String := hexdigest (update md5_init data)

/-- The specification's description of the checksum: the MD5 hex digest of
the single byte string obtained by concatenating all the files' contents in
list order. -/
def checksum_of_concatenation (content : String → List Nat) (files : List String) :
    String :=
  md5_hex ((files.map content).flatten)

/-- A directory tree: the files directly inside (name, mtime) and the named
subdirectories, in the order `os.walk` reports them. -/
inductive Dir where
  | node : List (String × Nat) → List (String × Dir) → Dir

/-- Embedding of `os.path.join(root, name)` for a relative name. -/
def pathJoin (root name : String) : String := root ++ "/" ++ name

/-- Embedding of `str.endswith(suffix)`: the suffix test on characters. -/
def strEndsWith (s suffixStr : String) : Bool :=
  List.isSuffixOf suffixStr.data s.data

mutual
/-- The collection loop of `get_files_sorted_by_mtime`: `os.walk` yields the
root directory first, then each subdirectory tree in order; for each
directory the filenames ending in the extension are joined to the root path.
Each collected path is paired with the file's modification time, standing
for `os.path.getmtime` on that path. -/
def walkCollect (ext root : String) : Dir → List (String × Nat)
  | Dir.node files subdirs =>
      (files.filter (fun f => strEndsWith f.1 ext)).map
        (fun f => (pathJoin root f.1, f.2)) ++ walkSubdirs ext root subdirs

/-- Collection over the subdirectory list, in list order. -/
def walkSubdirs (ext root : String) : List (String × Dir) → List (String × Nat)
  | [] => []
  | sd :: rest => walkCollect ext (pathJoin root sd.1) sd.2 ++ walkSubdirs ext root rest
end

/-- Comparison used by `sorted(files, key=os.path.getmtime)`. -/
def mtimeLe (a b : String × Nat) : Bool := decide (a.2 ≤ b.2)

/-- Stable ascending sort by modification time (Python's `sorted` is a
stable mergesort). -/
def sortByMtime (l : List (String × Nat)) : List (String × Nat) :=
  l.mergeSort mtimeLe

/-- Embedding of `get_files_sorted_by_mtime(directory, extension=".wav")`:
walk the tree, keep paths with the extension, sort ascending by mtime. -/
def get_files_sorted_by_mtime (directory : String) (tree : Dir)
    (extension : String := ".wav") : List String :=
  (sortByMtime (walkCollect extension directory tree)).map Prod.fst

/-- A single-quote character, written by `generate_playlist` around paths. -/
def squote : String := String.mk [Char.ofNat 39]

/-- One playlist line as written: `file '<path>'` followed by a newline. -/
def playlistLine (f : String) : String :=
  "file " ++ squote ++ f ++ squote ++ String.mk [Char.ofNat 10]

/-- The `file '<path>'` form of one manifest record, without the newline. -/
def playlistBody (f : String) : String := "file " ++ squote ++ f ++ squote

/-- Embedding of `generate_playlist(files, playlist_path)`: the full text
written to the playlist file, which `open(..., 'w')` overwrites. -/
def generate_playlist (files : List String) : String :=
  String.join (files.map playlistLine)

/-- Split a character list at newline characters (the lines of a text). -/
def splitNl : List Char → List (List Char)
  | [] => [[]]
  | c :: rest =>
      if c = Char.ofNat 10 then [] :: splitNl rest
      else
        match splitNl rest with
        | [] => [[c]]
        | line :: more => (c :: line) :: more

/-- The lines of a string, splitting at every newline character. -/
def contentLines (s : String) : List String := (splitNl s.data).map String.mk

/-- Outcome of `open(checksum_path).read()` as the script can observe it:
contents on success, `FileNotFoundError`, or any other error (by errno). -/
inductive ReadOutcome where
  | found : String → ReadOutcome
  | fileNotFound : ReadOutcome
  | ioErr : Nat → ReadOutcome

/-- Whitespace characters removed by Python's `str.strip()`: the full
`Py_UNICODE_ISSPACE` set — tab through carriage return (9-13), the
information separators and space (28-32), next line (133), no-break space
(160), ogham space mark (5760), the en-quad..hair-space range (8192-8202),
line and paragraph separators (8232, 8233), narrow no-break space (8239),
medium mathematical space (8287) and ideographic space (12288). -/
def isPyWs (c : Char) : Bool :=
  (9 ≤ c.toNat && c.toNat ≤ 13) || (28 ≤ c.toNat && c.toNat ≤ 32) ||
  c.toNat = 133 || c.toNat = 160 || c.toNat = 5760 ||
  (8192 ≤ c.toNat && c.toNat ≤ 8202) || c.toNat = 8232 || c.toNat = 8233 ||
  c.toNat = 8239 || c.toNat = 8287 || c.toNat = 12288

/-- Embedding of `str.strip()`: drop whitespace from both ends. -/
def pyStrip (s : String) : String :=
  String.mk (((s.data.dropWhile isPyWs).reverse.dropWhile isPyWs).reverse)

/-- Universal-newline decoding applied by text-mode `open(..., 'r')`:
a carriage return-line feed pair and a lone carriage return both become one
line feed. -/
def univNewlines : List Char → List Char
  | [] => []
  | [c] => if c = Char.ofNat 13 then [Char.ofNat 10] else [c]
  | c :: d :: rest =>
      if c = Char.ofNat 13 && d = Char.ofNat 10 then
        Char.ofNat 10 :: univNewlines rest
      else if c = Char.ofNat 13 then Char.ofNat 10 :: univNewlines (d :: rest)
      else c :: univNewlines (d :: rest)

/-- Universal-newline decoding on strings. -/
def univNewlinesStr (s : String) : String := String.mk (univNewlines s.data)

/-- Embedding of `read_previous_checksum(checksum_path)`: the stripped file
contents as text-mode `read()` returns them (after universal-newline
decoding); the empty string when the file is absent (`FileNotFoundError` is
the only handled exception); any other error propagates. `found` carries
the raw stored content of the checksum file. -/
def read_previous_checksum : ReadOutcome → Except Nat String
  | ReadOutcome.found s => Except.ok (pyStrip (univNewlinesStr s))
  | ReadOutcome.fileNotFound => Except.ok ""
  | ReadOutcome.ioErr e => Except.error e

/-- Embedding of `write_new_checksum(checksum, checksum_path)`: the exact
text stored in the checksum file (no newline is appended; on the POSIX
system the script addresses, text-mode write keeps line feeds unchanged). -/
def write_new_checksum (checksum : String) : String := checksum

/-- Modelled from the spec: the main driver below `concatenate_files` is
missing from the source (the file is cut off inside `concatenate_files`).
Per the spec, the external concatenation tool is invoked exactly when the
newly computed digest differs from the stored one ("Only invoked when new
digest ≠ stored digest"; "First run (no checksum file) always triggers
concatenation", the stored digest then reading as the empty string). -/
def shouldConcatenate (prevDigest newDigest : String) : Bool :=
  decide (newDigest ≠ prevDigest)

/-- Fewer than 64 pending bytes are just buffered. -/
theorem absorb_of_lt (h : Hash) (p : List Nat) (hp : p.length < 64) :
    absorb h p = (h, p) := by
  rw [absorb.eq_def, dif_neg (by omega)]

/-- Compositionality of block absorption: feeding `p ++ q` is the same as
feeding `p`, then feeding the residue of `p` together with `q`. -/
theorem absorb_append (h : Hash) (p q : List Nat) :
    absorb h (p ++ q) = absorb (absorb h p).1 ((absorb h p).2 ++ q) := by
  generalize hn : p.length = n
  induction n using Nat.strong_induction_on generalizing h p with
  | _ n ih =>
    by_cases h64 : 64 ≤ p.length
    · have h64q : 64 ≤ (p ++ q).length := by
        simp only [List.length_append]
        omega
      have hrhs : absorb h p = absorb (compress h (p.take 64)) (p.drop 64) := by
        rw [absorb.eq_def, dif_pos h64]
      have hlhs : absorb h (p ++ q)
          = absorb (compress h (p.take 64)) (p.drop 64 ++ q) := by
        rw [absorb.eq_def, dif_pos h64q, List.take_append_of_le_length h64,
          List.drop_append_of_le_length h64]
      rw [hrhs, hlhs]
      have hlt : (p.drop 64).length < n := by
        simp only [List.length_drop]
        omega
      exact ih (p.drop 64).length hlt (compress h (p.take 64)) (p.drop 64) rfl
    · rw [absorb_of_lt h p (by omega)]

/-- The residual buffer left by absorption is always shorter than a block. -/
theorem absorb_snd_lt (h : Hash) (p : List Nat) : (absorb h p).2.length < 64 := by
  generalize hn : p.length = n
  induction n using Nat.strong_induction_on generalizing h p with
  | _ n ih =>
    by_cases h64 : 64 ≤ p.length
    · rw [absorb.eq_def, dif_pos h64]
      have hlt : (p.drop 64).length < n := by
        simp only [List.length_drop]
        omega
      exact ih (p.drop 64).length hlt (compress h (p.take 64)) (p.drop 64) rfl
    · rw [absorb_of_lt h p (by omega)]
      show p.length < 64
      omega

/-- Invariant of a well-formed md5 context: the buffer holds less than one
block, as it does for every context reachable from `md5_init` by `update`. -/
def ctxWf (ctx : MD5Ctx) : Prop := ctx.buffer.length < 64

theorem update_wf (ctx : MD5Ctx) (data : List Nat) : ctxWf (update ctx data) := by
  simp only [update, ctxWf]
  exact absorb_snd_lt _ _

theorem md5_init_wf : ctxWf md5_init := by
  simp [ctxWf, md5_init]

/-- Updating with no bytes leaves a well-formed context unchanged. -/
theorem update_nil (ctx : MD5Ctx) (hw : ctxWf ctx) : update ctx [] = ctx := by
  obtain ⟨h, b, l⟩ := ctx
  simp only [update, List.append_nil]
  rw [absorb_of_lt h b (show b.length < 64 from hw)]
  simp

/-- The md5 `update` method is a monoid action: two successive updates are
one update with the concatenated bytes. -/
theorem update_append (ctx : MD5Ctx) (x y : List Nat) :
    update (update ctx x) y = update ctx (x ++ y) := by
  obtain ⟨h, b, l⟩ := ctx
  simp only [update]
  rw [← List.append_assoc, absorb_append h (b ++ x) y]
  simp [List.length_append, Nat.add_assoc]

/-- Folding `update` over a list of chunks is one update with their
concatenation. -/
theorem foldl_update_flatten (cs : List (List Nat)) (ctx : MD5Ctx) (hw : ctxWf ctx) :
    cs.foldl update ctx = update ctx cs.flatten := by
  induction cs generalizing ctx with
  | nil => simpa using (update_nil ctx hw).symm
  | cons c cs ih =>
      simp only [List.foldl_cons, List.flatten_cons]
      rw [ih (update ctx c) (update_wf ctx c), update_append]

/-- The 4096-byte chunks of a byte list concatenate back to the list. -/
theorem flatten_chunks4096 (bs : List Nat) : (chunks4096 bs).flatten = bs := by
  generalize hn : bs.length = n
  induction n using Nat.strong_induction_on generalizing bs with
  | _ n ih =>
    rw [chunks4096.eq_def]
    by_cases h : bs = []
    · simp [h]
    · rw [dif_neg h]
      simp only [List.flatten_cons]
      have hlt : (bs.drop 4096).length < n := by
        have hpos : 0 < bs.length := List.length_pos.mpr h
        simp only [List.length_drop]
        omega
      rw [ih (bs.drop 4096).length hlt (bs.drop 4096) rfl, List.take_append_drop]

/-- The whole per-file chunking loop of `calculate_checksum` equals a single
update with the concatenation of all the files' contents. -/
theorem foldl_files_update (content : String → List Nat) (files : List String)
    (ctx : MD5Ctx) (hw : ctxWf ctx) :
    files.foldl (fun c f => (chunks4096 (content f)).foldl update c) ctx
      = update ctx ((files.map content).flatten) := by
  induction files generalizing ctx with
  | nil => simpa using (update_nil ctx hw).symm
  | cons f fs ih =>
      simp only [List.foldl_cons, List.map_cons, List.flatten_cons]
      rw [foldl_update_flatten _ ctx hw, flatten_chunks4096,
        ih (update ctx (content f)) (update_wf ctx (content f)), update_append]

/-- The chunked checksum equals the digest of the concatenated contents. -/
theorem calculate_checksum_eq (content : String → List Nat) (files : List String) :
    calculate_checksum content files = checksum_of_concatenation content files := by
  unfold calculate_checksum checksum_of_concatenation md5_hex
  rw [foldl_files_update content files md5_init md5_init_wf]

/-- The length of a string built from a character list. -/
theorem length_mk (l : List Char) : (String.mk l).length = l.length := rfl

/-- The characters of a string built from a character list. -/
theorem data_mk (l : List Char) : (String.mk l).data = l := rfl

/-- Every character `hexChar` produces is a lowercase hex digit. -/
theorem hexChar_mem (n : Nat) : hexChar n ∈ hexDigits := by
  have key : ∀ m, m < 16 → hexDigits.getD m (Char.ofNat 48) ∈ hexDigits := by decide
  exact key (n % 16) (Nat.mod_lt _ (by omega))

/-- Hex-encoding a byte list yields only lowercase hex digits. -/
theorem all_hex_flatten (bs : List Nat) :
    ((bs.map byteToHex).flatten).all (fun c => hexDigits.contains c) = true := by
  induction bs with
  | nil => rfl
  | cons b bs ih => simp [byteToHex, ih, hexChar_mem]

/-- Hex-encoding a byte list yields two characters per byte. -/
theorem length_hex_flatten (bs : List Nat) :
    ((bs.map byteToHex).flatten).length = 2 * bs.length := by
  induction bs with
  | nil => rfl
  | cons b bs ih =>
      simp only [List.map_cons, List.flatten_cons, List.length_append, ih, byteToHex]
      simp
      omega

/-- Every md5 hexdigest has exactly 32 characters. -/
theorem hexdigest_length (ctx : MD5Ctx) : (hexdigest ctx).length = 32 := by
  simp only [hexdigest]
  rw [length_mk, length_hex_flatten]
  simp [wordLE]

/-- Every character of an md5 hexdigest is a lowercase hex digit. -/
theorem hexdigest_all_hex (ctx : MD5Ctx) :
    (hexdigest ctx).data.all (fun c => hexDigits.contains c) = true := by
  simp only [hexdigest]
  exact all_hex_flatten _

/-- No md5 hexdigest is the empty string. -/
theorem hexdigest_ne_empty (ctx : MD5Ctx) : hexdigest ctx ≠ "" := by
  intro h
  have hlen := hexdigest_length ctx
  rw [h] at hlen
  exact absurd hlen (by decide)

/-- A list whose head does not satisfy the predicate is left whole by
`dropWhile`. -/
theorem dropWhile_eq_self_of_head (l : List Char)
    (h : ∀ c, l.head? = some c → isPyWs c = false) : l.dropWhile isPyWs = l := by
  cases l with
  | nil => rfl
  | cons c t => simp [List.dropWhile_cons, h c rfl]

/-- Whether neither end of a string is a Python whitespace character. -/
def noWsAt (o : Option Char) : Bool :=
  match o with
  | none => true
  | some c => !isPyWs c

/-- A string is already stripped when neither its first nor its last
character is whitespace. -/
def hasNoOuterWs (s : String) : Bool :=
  noWsAt s.data.head? && noWsAt s.data.getLast?

/-- Python's `strip()` leaves a string without outer whitespace unchanged. -/
theorem pyStrip_eq_self (s : String) (h : hasNoOuterWs s = true) : pyStrip s = s := by
  simp only [hasNoOuterWs, Bool.and_eq_true] at h
  obtain ⟨ha, hb⟩ := h
  have h1 : s.data.dropWhile isPyWs = s.data := by
    apply dropWhile_eq_self_of_head
    intro c hc
    rw [hc] at ha
    simpa [noWsAt] using ha
  have h2 : s.data.reverse.dropWhile isPyWs = s.data.reverse := by
    apply dropWhile_eq_self_of_head
    intro c hc
    rw [List.head?_reverse] at hc
    rw [hc] at hb
    simpa [noWsAt] using hb
  unfold pyStrip
  rw [h1, h2, List.reverse_reverse]

/-- Universal-newline decoding leaves a carriage-return-free text unchanged. -/
theorem univNewlines_eq_self (l : List Char)
    (h : l.all (fun c => !(c = Char.ofNat 13)) = true) : univNewlines l = l := by
  induction l with
  | nil => rfl
  | cons c t ih =>
      rw [List.all_cons, Bool.and_eq_true] at h
      obtain ⟨hc, ht⟩ := h
      have hcne : ¬(c = Char.ofNat 13) := by simpa using hc
      cases t with
      | nil =>
          show (if c = Char.ofNat 13 then [Char.ofNat 10] else [c]) = [c]
          rw [if_neg hcne]
      | cons d rest =>
          have hpair : ¬((c = Char.ofNat 13 && d = Char.ofNat 10) = true) := by
            simp [hcne]
          show (if c = Char.ofNat 13 && d = Char.ofNat 10 then
                  Char.ofNat 10 :: univNewlines rest
                else if c = Char.ofNat 13 then Char.ofNat 10 :: univNewlines (d :: rest)
                else c :: univNewlines (d :: rest)) = c :: d :: rest
          rw [if_neg hpair, if_neg hcne]
          exact congrArg (List.cons c) (ih ht)

/-- Splitting at newlines after a newline-free line recovers that line. -/
theorem splitNl_append (line rest : List Char)
    (h : line.all (fun c => !(c = Char.ofNat 10)) = true) :
    splitNl (line ++ Char.ofNat 10 :: rest) = line :: splitNl rest := by
  induction line with
  | nil => simp [splitNl]
  | cons c t ih =>
      rw [List.all_cons, Bool.and_eq_true] at h
      obtain ⟨hc, ht⟩ := h
      have hcne : ¬(c = Char.ofNat 10) := by simpa using hc
      simp only [List.cons_append, splitNl, if_neg hcne]
      rw [List.append_eq, ih ht]

/-- The characters of a left fold of string concatenation. -/
theorem foldl_append_data (ls : List String) (acc : String) :
    (ls.foldl (fun a b => a ++ b) acc).data
      = acc.data ++ (ls.map String.data).flatten := by
  induction ls generalizing acc with
  | nil => simp
  | cons s ls ih => simp [List.foldl_cons, ih, String.data_append]

/-- The characters of `String.join`. -/
theorem join_data (ls : List String) :
    (String.join ls).data = (ls.map String.data).flatten := by
  rw [String.join]
  simpa using foldl_append_data ls ""

/-- A playlist line is its record followed by one newline character. -/
theorem playlistLine_data (f : String) :
    (playlistLine f).data = (playlistBody f).data ++ [Char.ofNat 10] := by
  simp [playlistLine, playlistBody, String.data_append]

/-- A manifest record contains no newline when the path contains none. -/
theorem body_all_ne_nl (f : String)
    (hf : f.data.all (fun c => !(c = Char.ofNat 10)) = true) :
    (playlistBody f).data.all (fun c => !(c = Char.ofNat 10)) = true := by
  simp only [playlistBody, String.data_append, List.all_append, Bool.and_eq_true]
  exact ⟨⟨⟨by decide, by decide⟩, hf⟩, by decide⟩

/-- The mtime comparison is transitive. -/
theorem mtimeLe_trans (a b c : String × Nat) (hab : mtimeLe a b = true)
    (hbc : mtimeLe b c = true) : mtimeLe a c = true := by
  simp only [mtimeLe, decide_eq_true_eq] at *
  omega

/-- The mtime comparison is total. -/
theorem mtimeLe_total (a b : String × Nat) : (mtimeLe a b || mtimeLe b a) = true := by
  simp only [mtimeLe, Bool.or_eq_true, decide_eq_true_eq]
  omega

/-- The sort used by the enumerator is ascending in modification time. -/
theorem sortByMtime_sorted (l : List (String × Nat)) :
    List.Pairwise (fun a b => mtimeLe a b = true) (sortByMtime l) :=
  List.sorted_mergeSort mtimeLe_trans mtimeLe_total l

/-- The sort used by the enumerator permutes its input. -/
theorem sortByMtime_perm (l : List (String × Nat)) : (sortByMtime l).Perm l :=
  List.mergeSort_perm l mtimeLe

/-- C1: for every directory tree whose walk collects files with the target
extension having pairwise-distinct modification times,
`get_files_sorted_by_mtime` returns exactly the paths of those files — the
sorted list is a permutation of the collected list — in strictly ascending
order of modification time. -/
theorem get_files_sorted_returns_all_ascending (extension directory : String)
    (tree : Dir)
    (hdist : List.Pairwise (fun a b : String × Nat => a.2 ≠ b.2)
      (walkCollect extension directory tree)) :
    get_files_sorted_by_mtime directory tree extension
        = (sortByMtime (walkCollect extension directory tree)).map Prod.fst
      ∧ (sortByMtime (walkCollect extension directory tree)).Perm
          (walkCollect extension directory tree)
      ∧ List.Pairwise (fun a b : String × Nat => a.2 < b.2)
          (sortByMtime (walkCollect extension directory tree)) := by
  refine ⟨rfl, sortByMtime_perm _, ?_⟩
  have hs := sortByMtime_sorted (walkCollect extension directory tree)
  have hne : List.Pairwise (fun a b : String × Nat => a.2 ≠ b.2)
      (sortByMtime (walkCollect extension directory tree)) :=
    ((sortByMtime_perm (walkCollect extension directory tree)).pairwise_iff
      (fun hxy => hxy.symm)).mpr hdist
  exact (hs.and hne).imp
    (fun hab => lt_of_le_of_ne (by simpa [mtimeLe] using hab.1) hab.2)

/-- A sample directory tree for the enumerator: two matching files and one
non-matching file at the root, one matching file in a subdirectory. -/
def demoTree : Dir :=
  Dir.node [("b.wav", 5), ("a.wav", 3), ("notes.txt", 2)]
    [("sub", Dir.node [("c.wav", 4)] [])]

/-- Witness for C1 at a concrete directory tree with distinct mtimes. -/
theorem get_files_sorted_witness :
    List.Pairwise (fun a b : String × Nat => a.2 ≠ b.2)
      (walkCollect ".wav" "/music" demoTree)
    ∧ (get_files_sorted_by_mtime "/music" demoTree ".wav"
        = (sortByMtime (walkCollect ".wav" "/music" demoTree)).map Prod.fst
      ∧ (sortByMtime (walkCollect ".wav" "/music" demoTree)).Perm
          (walkCollect ".wav" "/music" demoTree)
      ∧ List.Pairwise (fun a b : String × Nat => a.2 < b.2)
          (sortByMtime (walkCollect ".wav" "/music" demoTree))) := by
  have hdist : List.Pairwise (fun a b : String × Nat => a.2 ≠ b.2)
      (walkCollect ".wav" "/music" demoTree) := by
    simp only [demoTree, walkCollect, walkSubdirs]
    decide
  exact ⟨hdist, get_files_sorted_returns_all_ascending ".wav" "/music" demoTree hdist⟩

/-- C2: the digest computed by streaming each file in 4096-byte chunks
equals the MD5 hex digest of the concatenation of all the files' contents
in list order. -/
theorem chunked_checksum_refines_concat_digest (content : String → List Nat)
    (files : List String) :
    calculate_checksum content files = checksum_of_concatenation content files :=
  calculate_checksum_eq content files

/-- C3: the checksum is deterministic — identical paths in identical order
with identical byte contents per file give identical digests, even across
two runs whose filesystems differ elsewhere. -/
theorem checksum_deterministic (content1 content2 : String → List Nat)
    (files1 files2 : List String) (hf : files1 = files2)
    (hc : ∀ f ∈ files1, content1 f = content2 f) :
    calculate_checksum content1 files1 = calculate_checksum content2 files2 := by
  subst hf
  rw [calculate_checksum_eq, calculate_checksum_eq]
  unfold checksum_of_concatenation
  rw [List.map_congr_left hc]

/-- First run content map of the determinism witness. -/
def contentA : String → List Nat := fun _ => [2, 3]

/-- Second run content map of the determinism witness: identical on the
listed file, different elsewhere. -/
def contentB : String → List Nat := fun s => if s = "zz" then [9] else [2, 3]

/-- Witness for C3 at concrete file lists and contents. -/
theorem checksum_deterministic_witness :
    (["a"] : List String) = ["a"]
    ∧ (∀ f ∈ (["a"] : List String), contentA f = contentB f)
    ∧ calculate_checksum contentA ["a"] = calculate_checksum contentB ["a"] :=
  ⟨rfl, by decide, checksum_deterministic contentA contentB ["a"] ["a"] rfl (by decide)⟩

/-- A filesystem in which every file holds the single byte 0. -/
def constContent : String → List Nat := fun _ => [0]

/-- Counterexample to C4 as stated: the two distinct paths "a" and "b" hold
identical bytes; reordering the file list swaps them yet the digest is
unchanged, so reordering does not always change the digest. -/
theorem reorder_same_digest_counterexample :
    (["a", "b"] : List String) ≠ ["b", "a"]
    ∧ calculate_checksum constContent ["b", "a"]
        = calculate_checksum constContent ["a", "b"] := by
  refine ⟨by decide, ?_⟩
  rw [calculate_checksum_eq, calculate_checksum_eq]
  rfl

/-- C4 (amended): the digest is a function of the concatenated byte contents
of the files in list order alone; a byte change or a reordering can change
the digest only by changing that concatenation, and any two file lists with
equal concatenated contents — in particular a reordering of files with
identical contents — give equal digests. -/
theorem digest_depends_only_on_concatenation
    (content1 content2 : String → List Nat) (files1 files2 : List String)
    (h : (files1.map content1).flatten = (files2.map content2).flatten) :
    calculate_checksum content1 files1 = calculate_checksum content2 files2 := by
  rw [calculate_checksum_eq, calculate_checksum_eq]
  unfold checksum_of_concatenation
  rw [h]

/-- Witness for the amended C4 at a concrete reordering. -/
theorem digest_depends_only_on_concatenation_witness :
    ((["x", "y"] : List String).map constContent).flatten
        = ((["y", "x"] : List String).map constContent).flatten
    ∧ calculate_checksum constContent ["x", "y"]
        = calculate_checksum constContent ["y", "x"] :=
  ⟨rfl, digest_depends_only_on_concatenation constContent constContent
    ["x", "y"] ["y", "x"] rfl⟩

/-- C5: `read_previous_checksum` yields the empty string exactly on the
missing-file outcome, the stripped contents on success, and propagates every
other error unchanged — `FileNotFoundError` is the only handled failure. -/
theorem read_previous_checksum_error_handling :
    read_previous_checksum ReadOutcome.fileNotFound = Except.ok ""
    ∧ (∀ e, read_previous_checksum (ReadOutcome.ioErr e) = Except.error e)
    ∧ (∀ s, read_previous_checksum (ReadOutcome.found s)
        = Except.ok (pyStrip (univNewlinesStr s))) :=
  ⟨rfl, fun _ => rfl, fun _ => rfl⟩

/-- C6: on a first run the stored digest reads as the empty string, the
newly computed digest is never the empty string, and so the concatenation
step is invoked. -/
theorem first_run_triggers_concatenation :
    read_previous_checksum ReadOutcome.fileNotFound = Except.ok ""
    ∧ ∀ (content : String → List Nat) (files : List String),
        calculate_checksum content files ≠ ""
        ∧ shouldConcatenate "" (calculate_checksum content files) = true := by
  refine ⟨rfl, fun content files => ?_⟩
  have hne : calculate_checksum content files ≠ "" := hexdigest_ne_empty _
  exact ⟨hne, by simp [shouldConcatenate, hne]⟩

/-- C7: the external concatenation tool is not invoked when the new digest
equals the stored one, and is invoked exactly when they differ. -/
theorem concat_invoked_iff_digest_changed (prevDigest newDigest : String) :
    (newDigest = prevDigest → shouldConcatenate prevDigest newDigest = false)
    ∧ (shouldConcatenate prevDigest newDigest = true ↔ newDigest ≠ prevDigest) := by
  constructor
  · intro h
    simp [shouldConcatenate, h]
  · simp [shouldConcatenate]

/-- Witness for C7 at concrete digests. -/
theorem concat_invoked_iff_digest_changed_witness :
    shouldConcatenate "abc" "abc" = false ∧ shouldConcatenate "abc" "def" = true :=
  ⟨(concat_invoked_iff_digest_changed "abc" "abc").1 rfl,
   (concat_invoked_iff_digest_changed "abc" "def").2.mpr (by decide)⟩

/-- The text written by `generate_playlist` for a cons list starts with the
record of the first file, a newline, then the text for the remaining files. -/
theorem generate_playlist_cons_data (f : String) (fs : List String) :
    (generate_playlist (f :: fs)).data
      = (playlistBody f).data ++ Char.ofNat 10 :: (generate_playlist fs).data := by
  simp only [generate_playlist, join_data, List.map_cons, List.flatten_cons,
    playlistLine_data]
  simp

/-- C8 (amended): for every file list whose paths contain no newline
character, the playlist file content consists of exactly one line per input
file, in list order, each line of the form file '<path>' (with a trailing
final newline, so splitting at newlines ends with one empty segment). -/
theorem playlist_one_line_per_file (files : List String)
    (h : files.all (fun f => f.data.all (fun c => !(c = Char.ofNat 10))) = true) :
    contentLines (generate_playlist files) = files.map playlistBody ++ [""] := by
  induction files with
  | nil => rfl
  | cons f fs ih =>
      simp only [List.all_cons, Bool.and_eq_true] at h
      obtain ⟨hf, hfs⟩ := h
      show (splitNl (generate_playlist (f :: fs)).data).map String.mk = _
      rw [generate_playlist_cons_data, splitNl_append _ _ (body_all_ne_nl f hf)]
      simp only [List.map_cons]
      exact congrArg (List.cons (playlistBody f)) (ih hfs)

/-- A path that contains a newline character, "a\(newline)b". -/
def newlinePath : String := String.mk [Char.ofNat 97, Char.ofNat 10, Char.ofNat 98]

/-- Counterexample to C8 as stated: for the single-file list whose path
contains a newline, the playlist content does not consist of one line per
input file of the form file '<path>' — the embedded newline produces three
newline-separated segments instead of two. -/
theorem playlist_newline_path_counterexample :
    contentLines (generate_playlist [newlinePath]) ≠ [playlistBody newlinePath, ""]
    ∧ (contentLines (generate_playlist [newlinePath])).length
        ≠ ([newlinePath] : List String).length + 1 := by
  constructor
  · decide
  · decide

/-- Witness for the amended C8 at concrete newline-free paths. -/
theorem playlist_one_line_per_file_witness :
    ((["intro.wav", "outro.wav"] : List String).all
      (fun f => f.data.all (fun c => !(c = Char.ofNat 10))) = true)
    ∧ contentLines (generate_playlist ["intro.wav", "outro.wav"])
        = (["intro.wav", "outro.wav"] : List String).map playlistBody ++ [""] :=
  ⟨by decide, playlist_one_line_per_file ["intro.wav", "outro.wav"] (by decide)⟩

/-- C9: for every file list the checksum is a 32-character string of
lowercase hexadecimal digits, hence never the empty string, so the empty
string returned by `read_previous_checksum` for a missing file cannot
collide with a genuinely stored digest. -/
theorem checksum_is_32_lowercase_hex (content : String → List Nat)
    (files : List String) :
    (calculate_checksum content files).length = 32
    ∧ (calculate_checksum content files).data.all
        (fun c => hexDigits.contains c) = true
    ∧ calculate_checksum content files ≠ ""
    ∧ read_previous_checksum ReadOutcome.fileNotFound = Except.ok "" :=
  ⟨hexdigest_length _, hexdigest_all_hex _, hexdigest_ne_empty _, rfl⟩

/-- The string "a", carriage return, "b": no leading or trailing whitespace,
but a carriage return inside. -/
def crString : String := String.mk [Char.ofNat 97, Char.ofNat 13, Char.ofNat 98]

/-- Counterexample to C10 as stated: the stored string "a\(CR)b" has no
leading or trailing whitespace, yet reading it back in text mode rewrites
the carriage return to a line feed, so the round trip returns "a\(LF)b"
instead of the original string. -/
theorem roundtrip_cr_counterexample :
    hasNoOuterWs crString = true
    ∧ read_previous_checksum (ReadOutcome.found (write_new_checksum crString))
        ≠ Except.ok crString
    ∧ read_previous_checksum (ReadOutcome.found (write_new_checksum crString))
        = Except.ok (String.mk [Char.ofNat 97, Char.ofNat 10, Char.ofNat 98]) := by
  refine ⟨by decide, ?_, ?_⟩
  · show Except.ok (pyStrip (univNewlinesStr crString)) ≠ Except.ok crString
    intro hcontra
    exact absurd (Except.ok.inj hcontra) (by decide)
  · show Except.ok (pyStrip (univNewlinesStr crString))
        = Except.ok (String.mk [Char.ofNat 97, Char.ofNat 10, Char.ofNat 98])
    exact congrArg Except.ok (by decide)

/-- C10 (amended): writing a checksum and reading it back returns the
original string whenever the string has no leading or trailing whitespace
(in Python's `str.strip()` sense) and contains no carriage return — the read
strips surrounding whitespace and applies universal-newline decoding to the
stored content, and both are the identity under these hypotheses; in
particular every hex digest round-trips. -/
theorem checksum_roundtrip (s : String) (h1 : hasNoOuterWs s = true)
    (h2 : s.data.all (fun c => !(c = Char.ofNat 13)) = true) :
    read_previous_checksum (ReadOutcome.found (write_new_checksum s))
      = Except.ok s := by
  show Except.ok (pyStrip (univNewlinesStr s)) = Except.ok s
  have hs : univNewlinesStr s = s := by
    unfold univNewlinesStr
    rw [univNewlines_eq_self s.data h2]
  rw [hs, pyStrip_eq_self s h1]

/-- Witness for the amended C10 at a concrete digest-like string. -/
theorem checksum_roundtrip_witness :
    hasNoOuterWs "0cc175b9c0f1b6a831c399e269772661" = true
    ∧ ("0cc175b9c0f1b6a831c399e269772661" : String).data.all
        (fun c => !(c = Char.ofNat 13)) = true
    ∧ read_previous_checksum
        (ReadOutcome.found (write_new_checksum "0cc175b9c0f1b6a831c399e269772661"))
      = Except.ok "0cc175b9c0f1b6a831c399e269772661" :=
  ⟨by decide, by decide,
   checksum_roundtrip "0cc175b9c0f1b6a831c399e269772661" (by decide) (by decide)⟩
